import Mathlib

/-!
Verification of the Aria fashion-styler front-end (React/TypeScript).

The development shallowly embeds the audio streaming / playback / session
subsystem of the application: the transport codec, the playback scheduler
(`nextStartTimeRef`, `sourcesRef`), the session state machine (`appState`),
the tool-call handler, the transcript accumulator and the amplitude
publisher.  Pure functions of the source become Lean functions; the React
state and refs become an explicit `Model` record threaded through event
handlers.  Machine floats of the source (clock times, durations, samples)
are modelled as rationals; byte values are natural numbers below 256.

The module `utils/audio-helpers` (functions `encode`, `decode`,
`decodeAudioData`, `createBlob`) is imported by the application but its
file is not part of the repository snapshot; those functions are modelled
from the specification's description (section 4.1) and are marked as such
in their doc comments.  Everything else is translated directly from
`src/unnamed/part_000` (the conflict-free copy of `src/App.tsx`).
-/

/-! ## Transport codec (base64), modelled from the spec -/

/-- Modelled from the spec: the sextet-to-character table of the
base64-style transport encoding implemented in `utils/audio-helpers`
(file absent from the snapshot).  Standard alphabet `A-Z a-z 0-9 + /`. -/
def sextetToChar (v : Nat) : Char :=
  if v < 26 then Char.ofNat (65 + v)
  else if v < 52 then Char.ofNat (97 + (v - 26))
  else if v < 62 then Char.ofNat (48 + (v - 52))
  else if v = 62 then '+'
  else '/'

/-- Modelled from the spec: inverse character table of the transport
encoding (`utils/audio-helpers`, absent from the snapshot). -/
def charToSextet (c : Char) : Nat :=
  let n := c.toNat
  if 65 ≤ n ∧ n ≤ 90 then n - 65
  else if 97 ≤ n ∧ n ≤ 122 then n - 97 + 26
  else if 48 ≤ n ∧ n ≤ 57 then n - 48 + 52
  else if n = 43 then 62
  else 63

/-- Modelled from the spec: byte triples become sextet quadruples; a final
group of one or two bytes becomes two or three sextets. -/
def encodeSextets : List Nat → List Nat
  | a :: b :: c :: rest =>
      a / 4 :: ((a % 4 * 16 + b / 16) :: ((b % 16 * 4 + c / 64) :: (c % 64 :: encodeSextets rest)))
  | [a, b] => [a / 4, a % 4 * 16 + b / 16, b % 16 * 4]
  | [a] => [a / 4, a % 4 * 16]
  | [] => []

/-- Modelled from the spec: `encode` of `utils/audio-helpers` (absent from
the snapshot), the byte-buffer to text transport encoding, with standard
base64 padding for lengths not divisible by 3. -/
def encode (bytes : List Nat) : String :=
  let chars := (encodeSextets bytes).map sextetToChar
  let pad : List Char :=
    if bytes.length % 3 = 1 then ['=', '=']
    else if bytes.length % 3 = 2 then ['='] else []
  String.mk (chars ++ pad)

/-- Modelled from the spec: sextet quadruples back to byte triples, with a
final group of two or three sextets yielding one or two bytes. -/
def decodeSextets : List Nat → List Nat
  | w :: x :: y :: z :: rest =>
      (w * 4 + x / 16) :: ((x % 16 * 16 + y / 4) :: ((y % 4 * 64 + z) :: decodeSextets rest))
  | [w, x, y] => [w * 4 + x / 16, x % 16 * 16 + y / 4]
  | [w, x] => [w * 4 + x / 16]
  | _ => []

/-- Modelled from the spec: `decode` of `utils/audio-helpers` (absent from
the snapshot), the text to byte-buffer transport decoding. -/
def decode (s : String) : List Nat :=
  decodeSextets ((s.data.filter (fun c => c ≠ '=')).map charToSextet)

theorem charToSextet_sextetToChar : ∀ v, v < 64 → charToSextet (sextetToChar v) = v := by
  decide

theorem sextetToChar_ne_eq : ∀ v, v < 64 → sextetToChar v ≠ '=' := by
  decide

theorem decodeSextets_encodeSextets :
    ∀ bytes : List Nat, (∀ b ∈ bytes, b < 256) →
      decodeSextets (encodeSextets bytes) = bytes
  | [] => fun _ => rfl
  | [a] => fun h => by
      have ha : a < 256 := h a (by simp)
      simp only [encodeSextets, decodeSextets, List.cons.injEq, and_true]
      omega
  | [a, b] => fun h => by
      have ha : a < 256 := h a (by simp)
      have hb : b < 256 := h b (by simp)
      simp only [encodeSextets, decodeSextets, List.cons.injEq, and_true]
      constructor <;> omega
  | a :: b :: c :: rest => fun h => by
      have ha : a < 256 := h a (by simp)
      have hb : b < 256 := h b (by simp)
      have hc : c < 256 := h c (by simp)
      have ih := decodeSextets_encodeSextets rest (fun x hx => h x (by simp [hx]))
      simp only [encodeSextets, decodeSextets, ih, List.cons.injEq, and_true]
      refine ⟨?_, ?_, ?_⟩ <;> omega

theorem encodeSextets_lt :
    ∀ bytes : List Nat, (∀ b ∈ bytes, b < 256) →
      ∀ v ∈ encodeSextets bytes, v < 64
  | [] => by simp [encodeSextets]
  | [a] => fun h => by
      have ha : a < 256 := h a (by simp)
      simp only [encodeSextets, List.mem_cons, List.not_mem_nil, or_false]
      rintro v (rfl | rfl) <;> omega
  | [a, b] => fun h => by
      have ha : a < 256 := h a (by simp)
      have hb : b < 256 := h b (by simp)
      simp only [encodeSextets, List.mem_cons, List.not_mem_nil, or_false]
      rintro v (rfl | rfl | rfl) <;> omega
  | a :: b :: c :: rest => fun h => by
      have ha : a < 256 := h a (by simp)
      have hb : b < 256 := h b (by simp)
      have hc : c < 256 := h c (by simp)
      have ih := encodeSextets_lt rest (fun x hx => h x (by simp [hx]))
      simp only [encodeSextets, List.mem_cons]
      rintro v (rfl | rfl | rfl | rfl | hv)
      · omega
      · omega
      · omega
      · omega
      · exact ih v hv

/-- Claim C3: for every byte buffer B (all entries below 256), including the
empty buffer and buffers whose length is not divisible by 3, the transport
text encoding round-trips exactly: `decode (encode B) = B`. -/
theorem transport_roundtrip (B : List Nat) (hB : ∀ b ∈ B, b < 256) :
    decode (encode B) = B := by
  have hS : ∀ v ∈ encodeSextets B, v < 64 := encodeSextets_lt B hB
  have hchars :
      ((encodeSextets B).map sextetToChar).filter (fun c => c ≠ '=') =
        (encodeSextets B).map sextetToChar := by
    apply List.filter_eq_self.mpr
    intro c hcmem
    obtain ⟨v, hv, rfl⟩ := List.mem_map.mp hcmem
    simpa using sextetToChar_ne_eq v (hS v hv)
  have hpad :
      ∀ pad : List Char, (∀ c ∈ pad, c = '=') →
        pad.filter (fun c => c ≠ '=') = [] := by
    intro pad hp
    apply List.filter_eq_nil_iff.mpr
    intro c hcmem
    simp [hp c hcmem]
  unfold decode encode
  simp only [String.data]
  rw [List.filter_append, hchars]
  rw [hpad _ (by
    intro c hcmem
    split at hcmem <;> simp_all)]
  rw [List.append_nil, List.map_map]
  have hmap : (encodeSextets B).map (charToSextet ∘ sextetToChar) = encodeSextets B := by
    have := List.map_congr_left (l := encodeSextets B)
      (f := charToSextet ∘ sextetToChar) (g := id)
      (fun v hv => charToSextet_sextetToChar v (hS v hv))
    simpa using this
  rw [hmap]
  exact decodeSextets_encodeSextets B hB

/-- Claim C3 witness: a concrete buffer of length 4 (not divisible by 3)
round-trips. -/
theorem transport_roundtrip_witness :
    (∀ b ∈ [0, 255, 7, 9], b < 256) ∧ decode (encode [0, 255, 7, 9]) = [0, 255, 7, 9] :=
  ⟨by decide, transport_roundtrip [0, 255, 7, 9] (by decide)⟩

/-! ## Data model

Translated from `src/types.ts` and the React state/refs of
`src/unnamed/part_000` (`App.tsx`). -/

/-- `AppState` from `src/types.ts`. -/
inductive AppState
  | IDLE
  | CONNECTING
  | LISTENING
  | SPEAKING
  | ERROR
deriving DecidableEq, Repr

/-- Playback status of an `AudioBufferSourceNode` handle.  `stop()` on a
node that already finished naturally is a no-op of the platform, so
`stopHandle` below is a total function. -/
inductive HStatus
  | playing
  | finished
  | stopped
deriving DecidableEq, Repr

/-- Effect of calling `stop()` on a playback handle: a playing node becomes
stopped; a node that already finished naturally is tolerated unchanged. -/
def stopHandle : HStatus → HStatus
  | HStatus.playing => HStatus.stopped
  | s => s

/-- Arguments of a `displayOutfitSuggestion` tool invocation.  The source
casts `fc.args as any as Outfit` with no validation, so every field may be
absent: malformed invocations are represented by `none` fields. -/
structure ToolArgs where
  top : Option String
  bottom : Option String
  footwear : Option String
  accessories : Option (List String)
  colorPalette : Option (List String)
  vibe : Option String
deriving DecidableEq, Repr

/-- One entry of `message.toolCall.functionCalls`. -/
structure FunctionCall where
  id : String
  name : String
  args : ToolArgs
deriving DecidableEq, Repr

/-- Outbound transport effects of the handlers: `sendToolResponse`
acknowledgements, the live-connect request, and `sendRealtimeInput` text. -/
inductive Out
  | toolAck (id : String) (name : String) (result : String)
  | connectRequest
  | sendText (payload : String)
deriving DecidableEq, Repr

/-- One inbound `LiveServerMessage` as consumed by `onmessage`:
`toolCall.functionCalls` (empty list when the field is absent), the
`modelTurn.parts` with their optional `inlineData.data` byte payloads,
the optional `outputTranscription.text`, and the `interrupted` flag. -/
structure ServerMessage where
  toolCalls : List FunctionCall
  parts : List (Option (List Nat))
  outputTranscription : Option String
  interrupted : Bool
deriving DecidableEq, Repr

/-- A decoded audio buffer as produced by `decodeAudioData`:
normalized samples tagged with sample rate and channel count. -/
structure AudioBuffer where
  samples : List ℚ
  sampleRate : Nat
  numChannels : Nat
deriving DecidableEq, Repr

/-- Duration in seconds of a decoded buffer: frames divided by rate,
where frames = samples / channels. -/
def AudioBuffer.duration (b : AudioBuffer) : ℚ :=
  (b.samples.length : ℚ) / (b.numChannels : ℚ) / (b.sampleRate : ℚ)

/-- The mutable state of the component: the React state hooks
(`appState`, `transcription`, `userInput`, `currentOutfit`) and the refs
(`nextStartTimeRef`, `sourcesRef`, `sessionRef`).  `handles` records the
playback status of every created source node, keyed by the id used in
`sources`; `nextId` supplies fresh ids. -/
structure Model where
  appState : AppState
  nextStartTime : ℚ
  sources : List Nat
  handles : List (Nat × HStatus)
  nextId : Nat
  transcription : String
  userInput : String
  currentOutfit : Option ToolArgs
  session : Bool
deriving DecidableEq, Repr

/-- The initial values of the state hooks and refs:
`useState(AppState.IDLE)`, `useRef(0)`, `useRef(new Set())`, `useState('')`,
`useState(null)`, `useRef(null)`. -/
def initModel : Model :=
  { appState := AppState.IDLE
    nextStartTime := 0
    sources := []
    handles := []
    nextId := 0
    transcription := ""
    userInput := ""
    currentOutfit := none
    session := false }

/-! ## PCM decoding, modelled from the spec -/

/-- A 16-bit little-endian sample from two bytes, normalized to [-1, 1]
by dividing by 32768 (spec section 4.1). -/
def pcm16ToFloat (lo hi : Nat) : ℚ :=
  let v : ℤ := lo + 256 * hi
  (if v < 32768 then v else v - 65536) / 32768

/-- Byte pairs to normalized samples; a trailing odd byte yields nothing. -/
def toSamples : List Nat → List ℚ
  | lo :: hi :: rest => pcm16ToFloat lo hi :: toSamples rest
  | _ => []

theorem toSamples_length : ∀ l : List Nat, (toSamples l).length = l.length / 2
  | [] => by simp [toSamples]
  | [a] => by simp [toSamples]
  | lo :: hi :: rest => by
      have ih := toSamples_length rest
      simp only [toSamples, List.length_cons, ih]
      omega

/-- Modelled from the spec: `decodeAudioData` of `utils/audio-helpers`
(file absent from the snapshot).  Reinterprets a byte buffer as 16-bit
little-endian signed integers normalized to [-1, 1]; fails when the byte
length is not a multiple of 2 (spec section 4.1: such a chunk is dropped
and logged, not fatal to the session). -/
def decodeAudioData (data : List Nat) (sampleRate numChannels : Nat) : Option AudioBuffer :=
  if data.length % 2 = 0 then
    some { samples := toSamples data, sampleRate := sampleRate, numChannels := numChannels }
  else none

/-- Duration contributed by a well-formed chunk of `data.length` bytes at
24 kHz mono, as scheduled by the playback handler. -/
def chunkDuration (data : List Nat) : ℚ :=
  ((data.length / 2 : Nat) : ℚ) / 24000

/-! ## Event handlers, translated from onmessage and friends -/

/-- Line 158 of `src/unnamed/part_000`: the start offset of an arriving
chunk, `Math.max(nextStartTimeRef.current, ctx.currentTime)`. -/
def chunkStart (m : Model) (now : ℚ) : ℚ :=
  max m.nextStartTime now

/-- Lines 154-169 of `src/unnamed/part_000`, the body run for one part
carrying `inlineData.data`: set the state to SPEAKING and clamp the
schedule to the output clock, then decode; on success schedule a new
source at the clamped offset, advance the schedule by the buffer's
duration and register the handle.  In the source the state update and the
clamp precede the awaited decode, so they apply even when decoding fails
and the chunk is dropped. -/
def processPart (m : Model) (now : ℚ) (data : List Nat) : Model :=
  match decodeAudioData data 24000 1 with
  | none =>
      { m with appState := AppState.SPEAKING
               nextStartTime := chunkStart m now }
  | some buffer =>
      { m with appState := AppState.SPEAKING
               nextStartTime := chunkStart m now + buffer.duration
               sources := m.sources ++ [m.nextId]
               handles := m.handles ++ [(m.nextId, HStatus.playing)]
               nextId := m.nextId + 1 }

/-- The `for (const part of parts)` loop (lines 153-171): parts without
`inlineData.data` are skipped. -/
def processParts (m : Model) (now : ℚ) : List (Option (List Nat)) → Model
  | [] => m
  | none :: rest => processParts m now rest
  | some data :: rest => processParts (processPart m now data) now rest

/-- Lines 138-149: the `toolCall.functionCalls` loop.  A call named
`displayOutfitSuggestion` replaces `currentOutfit` with its raw arguments
and queues exactly one `sendToolResponse` acknowledgement echoing the
call id with result `success`; nothing validates the argument fields. -/
def processToolCalls (m : Model) : List FunctionCall → Model × List Out
  | [] => (m, [])
  | fc :: rest =>
      if fc.name = "displayOutfitSuggestion" then
        let r := processToolCalls { m with currentOutfit := some fc.args } rest
        (r.1, Out.toolAck fc.id fc.name "success" :: r.2)
      else processToolCalls m rest

/-- Lines 174-177: `if (text) setTranscription(prev => prev + text)` —
the fragment is appended unless absent or empty (empty string is falsy). -/
def processTranscription (m : Model) : Option String → Model
  | none => m
  | some t => if t = "" then m else { m with transcription := m.transcription ++ t }

/-- Lines 179-184: the `interrupted` branch — stop every handle in the
active set (a no-op on handles that already finished), clear the set,
reset the schedule to zero and return to LISTENING. -/
def processInterrupt (m : Model) : Model :=
  { m with
      handles := m.handles.map (fun p => if p.1 ∈ m.sources then (p.1, stopHandle p.2) else p)
      sources := []
      nextStartTime := 0
      appState := AppState.LISTENING }

/-- Lines 137-185: the full `onmessage` callback in source order —
tool calls, then audio parts, then transcription, then interruption. -/
def processMessage (m : Model) (msg : ServerMessage) (now : ℚ) : Model × List Out :=
  let r1 := processToolCalls m msg.toolCalls
  let m2 := processParts r1.1 now msg.parts
  let m3 := processTranscription m2 msg.outputTranscription
  let m4 := if msg.interrupted then processInterrupt m3 else m3
  (m4, r1.2)

/-- Lines 163-166: the `ended` listener of a source — delete it from the
set and, when the set becomes empty, set the state to LISTENING
(unconditionally, whatever the state was at that moment). -/
def processEnded (m : Model) (sid : Nat) : Model :=
  let srcs := m.sources.erase sid
  { m with
      sources := srcs
      appState := if srcs = [] then AppState.LISTENING else m.appState }

/-- Lines 149-168 of `src/App.tsx` (the variant with the credential
guard): `connectToAria` rejects immediately with state ERROR when the
`API_KEY` credential is absent, before any connection work; otherwise it
enters CONNECTING and issues the live-connect request.  The outcome of
that request arrives later through the open/error callbacks. -/
def connectToAria (m : Model) (hasKey : Bool) : Model × List Out :=
  if hasKey = false then ({ m with appState := AppState.ERROR }, [])
  else ({ m with appState := AppState.CONNECTING }, [Out.connectRequest])

/-- The `onopen` callback (line 120): the session is established and the
state becomes LISTENING; `sessionRef` is populated when the connect
promise resolves. -/
def onopen (m : Model) : Model :=
  { m with appState := AppState.LISTENING, session := true }

/-- The `onerror` callback (line 186). -/
def onerror (m : Model) : Model :=
  { m with appState := AppState.ERROR }

/-- The `onclose` callback (line 187). -/
def onclose (m : Model) : Model :=
  { m with appState := AppState.IDLE }

/-- The semantics of JavaScript `String.prototype.trim`: whitespace is
stripped from both ends (structurally, so that it evaluates). -/
def trimString (s : String) : String :=
  String.mk (((s.data.dropWhile Char.isWhitespace).reverse.dropWhile
    Char.isWhitespace).reverse)

/-- Lines 213-221: `handleSendMessage` — a blank input or a missing
session returns without doing anything; otherwise the text is transport-
encoded and sent, and both the input and the running transcript reset. -/
def handleSendMessage (m : Model) : Model × List Out :=
  if trimString m.userInput = "" ∨ m.session = false then (m, [])
  else
    ({ m with userInput := "", transcription := "" },
     [Out.sendText (encode (m.userInput.toUTF8.toList.map (fun b => b.toNat)))])

/-- Every externally driven transition of the component: the connect
button, the four transport callbacks, a source's `ended` event, the send
button and typing into the input field. -/
inductive Ev
  | connect (hasKey : Bool)
  | openEv
  | msg (M : ServerMessage) (now : ℚ)
  | ended (sid : Nat)
  | errorEv
  | closeEv
  | send
  | setInput (s : String)
deriving DecidableEq, Repr

/-- The event dispatcher: one step of the component. -/
def step (m : Model) (e : Ev) : Model × List Out :=
  match e with
  | Ev.connect hasKey => connectToAria m hasKey
  | Ev.openEv => (onopen m, [])
  | Ev.msg M now => processMessage m M now
  | Ev.ended sid => (processEnded m sid, [])
  | Ev.errorEv => (onerror m, [])
  | Ev.closeEv => (onclose m, [])
  | Ev.send => handleSendMessage m
  | Ev.setInput s => ({ m with userInput := s }, [])

/-- A send event that actually sends: nonblank trimmed input and a live
session (the guard of `handleSendMessage`). -/
def isValidSend (m : Model) (e : Ev) : Prop :=
  e = Ev.send ∧ ¬(trimString m.userInput = "" ∨ m.session = false)

/-- The start offsets assigned to a sequence of arriving chunks, each
given as (output-clock reading, byte payload), processed in arrival order
with no intervening interruption. -/
def chunkStarts (m : Model) : List (ℚ × List Nat) → List ℚ
  | [] => []
  | (now, data) :: rest => chunkStart m now :: chunkStarts (processPart m now data) rest

/-- The no-underrun condition of the spec: at each chunk's arrival the
output clock does not exceed the running schedule. -/
def underrunFree (m : Model) : List (ℚ × List Nat) → Bool
  | [] => true
  | (now, data) :: rest =>
      if now ≤ m.nextStartTime then underrunFree (processPart m now data) rest else false

/-! ## Scheduling lemmas -/

theorem chunkDuration_nonneg (data : List Nat) : 0 ≤ chunkDuration data := by
  unfold chunkDuration
  positivity

theorem processPart_even (m : Model) (now : ℚ) (data : List Nat)
    (h : data.length % 2 = 0) :
    processPart m now data =
      { m with appState := AppState.SPEAKING
               nextStartTime := chunkStart m now + chunkDuration data
               sources := m.sources ++ [m.nextId]
               handles := m.handles ++ [(m.nextId, HStatus.playing)]
               nextId := m.nextId + 1 } := by
  unfold processPart decodeAudioData
  rw [if_pos h]
  simp only [AudioBuffer.duration, toSamples_length, chunkDuration]
  norm_num

theorem processPart_odd (m : Model) (now : ℚ) (data : List Nat)
    (h : data.length % 2 = 1) :
    processPart m now data =
      { m with appState := AppState.SPEAKING
               nextStartTime := chunkStart m now } := by
  unfold processPart decodeAudioData
  rw [if_neg (by omega)]

theorem processPart_nextStartTime_le (m : Model) (now : ℚ) (data : List Nat) :
    chunkStart m now ≤ (processPart m now data).nextStartTime := by
  rcases Nat.mod_two_eq_zero_or_one data.length with h | h
  · rw [processPart_even m now data h]
    exact le_add_of_nonneg_right (chunkDuration_nonneg data)
  · rw [processPart_odd m now data h]

theorem nextStartTime_le_processPart (m : Model) (now : ℚ) (data : List Nat) :
    m.nextStartTime ≤ (processPart m now data).nextStartTime :=
  le_trans (le_max_left _ _) (processPart_nextStartTime_le m now data)

theorem chunkStarts_chain_aux :
    ∀ (chunks : List (ℚ × List Nat)) (m : Model),
      List.Chain' (fun a b => a ≤ b) (chunkStarts m chunks) ∧
        ∀ x ∈ (chunkStarts m chunks).head?, m.nextStartTime ≤ x
  | [], _ => ⟨List.chain'_nil, by simp [chunkStarts]⟩
  | (now, data) :: rest, m => by
      obtain ⟨ih1, ih2⟩ := chunkStarts_chain_aux rest (processPart m now data)
      constructor
      · rw [chunkStarts, List.chain'_cons']
        refine ⟨?_, ih1⟩
        intro b hb
        exact le_trans (processPart_nextStartTime_le m now data) (ih2 b hb)
      · intro x hx
        simp only [chunkStarts, List.head?_cons, Option.mem_def, Option.some.injEq] at hx
        subst hx
        exact le_max_left _ _

theorem chunkStarts_gapless_aux :
    ∀ (chunks : List (ℚ × List Nat)) (m : Model),
      (∀ c ∈ chunks, c.2.length % 2 = 0) →
      underrunFree m chunks = true →
      ∀ k, k + 1 < (chunkStarts m chunks).length →
        (chunkStarts m chunks).getD (k + 1) 0 =
          (chunkStarts m chunks).getD k 0 +
            chunkDuration (chunks.getD k ((0 : ℚ), ([] : List Nat))).2
  | [], _ => by
      intro _ _ k hk
      simp [chunkStarts] at hk
  | (now, data) :: rest, m => by
      intro heven hu k hk
      have hnow : now ≤ m.nextStartTime ∧ underrunFree (processPart m now data) rest = true := by
        rw [underrunFree] at hu
        split at hu
        · exact ⟨by assumption, hu⟩
        · exact absurd hu (by simp)
      have hdata : data.length % 2 = 0 := heven (now, data) (by simp)
      have hstart : chunkStart m now = m.nextStartTime := max_eq_left hnow.1
      match k with
      | 0 =>
          match rest, hk with
          | (now2, data2) :: rest2, _ =>
            have hnow2 : now2 ≤ (processPart m now data).nextStartTime := by
              have := hnow.2
              rw [underrunFree] at this
              split at this
              · assumption
              · exact absurd this (by simp)
            simp only [chunkStarts, List.getD_cons_succ, List.getD_cons_zero]
            rw [show chunkStart (processPart m now data) now2 =
                  (processPart m now data).nextStartTime from max_eq_left hnow2]
            rw [processPart_even m now data hdata]
      | k + 1 =>
          have hlen : k + 1 < (chunkStarts (processPart m now data) rest).length := by
            simpa [chunkStarts] using hk
          have ih := chunkStarts_gapless_aux rest (processPart m now data)
            (fun c hc => heven c (by simp [hc])) hnow.2 k hlen
          simpa [chunkStarts, List.getD_cons_succ] using ih

/-- Claim C1: chunks processed in arrival order with no interruption get
start offsets `max(schedule, clock)`, the schedule advancing by each
chunk's duration; the start offsets are non-decreasing, and whenever the
output clock never exceeds the running schedule, each start offset equals
the previous one plus the previous chunk's duration. -/
theorem scheduling_monotone_gapless (m : Model) (chunks : List (ℚ × List Nat)) :
    List.Chain' (fun a b => a ≤ b) (chunkStarts m chunks) ∧
      ((∀ c ∈ chunks, c.2.length % 2 = 0) →
        underrunFree m chunks = true →
        ∀ k, k + 1 < (chunkStarts m chunks).length →
          (chunkStarts m chunks).getD (k + 1) 0 =
            (chunkStarts m chunks).getD k 0 +
              chunkDuration (chunks.getD k ((0 : ℚ), ([] : List Nat))).2) :=
  ⟨(chunkStarts_chain_aux chunks m).1,
   fun he hu => chunkStarts_gapless_aux chunks m he hu⟩

/-- A concrete chunk sequence for the scheduling witness: three chunks of
0, 1 and 2 samples, all arriving at clock 0. -/
def demoChunks : List (ℚ × List Nat) :=
  [((0 : ℚ), ([] : List Nat)), (0, [1, 2]), (0, [3, 4, 5, 6])]

/-- Claim C1 witness: the hypotheses hold for `demoChunks` from the
initial model, and consecutive start offsets differ by the durations. -/
theorem scheduling_monotone_gapless_witness :
    (∀ c ∈ demoChunks, c.2.length % 2 = 0) ∧
      underrunFree initModel demoChunks = true ∧
      (chunkStarts initModel demoChunks).getD 1 0 =
        (chunkStarts initModel demoChunks).getD 0 0 +
          chunkDuration (demoChunks.getD 0 ((0 : ℚ), ([] : List Nat))).2 :=
  ⟨by decide,
   by norm_num [underrunFree, processPart, decodeAudioData, AudioBuffer.duration,
     toSamples, pcm16ToFloat, chunkStart, chunkDuration, demoChunks, initModel],
   (scheduling_monotone_gapless initModel demoChunks).2 (by decide)
     (by norm_num [underrunFree, processPart, decodeAudioData, AudioBuffer.duration,
       toSamples, pcm16ToFloat, chunkStart, chunkDuration, demoChunks, initModel])
     0
     (by norm_num [chunkStarts, demoChunks])⟩

/-! ## Handler lemmas -/

theorem processPart_appState (m : Model) (now : ℚ) (data : List Nat) :
    (processPart m now data).appState = AppState.SPEAKING := by
  unfold processPart
  split <;> rfl

theorem processPart_transcription (m : Model) (now : ℚ) (data : List Nat) :
    (processPart m now data).transcription = m.transcription := by
  unfold processPart
  split <;> rfl

theorem processParts_speaking :
    ∀ (ps : List (Option (List Nat))) (m : Model) (now : ℚ),
      m.appState = AppState.SPEAKING →
      (processParts m now ps).appState = AppState.SPEAKING
  | [], _, _, h => h
  | none :: rest, m, now, h => processParts_speaking rest m now h
  | some data :: rest, m, now, _ =>
      processParts_speaking rest (processPart m now data) now (processPart_appState m now data)

theorem processParts_some_speaking :
    ∀ (ps : List (Option (List Nat))) (m : Model) (now : ℚ),
      (∃ d, some d ∈ ps) →
      (processParts m now ps).appState = AppState.SPEAKING
  | [], _, _, h => absurd h (by simp)
  | none :: rest, m, now, h => by
      obtain ⟨d, hd⟩ := h
      have : some d ∈ rest := by simpa using hd
      exact processParts_some_speaking rest m now ⟨d, this⟩
  | some data :: rest, m, now, _ =>
      processParts_speaking rest (processPart m now data) now (processPart_appState m now data)

theorem processParts_transcription :
    ∀ (ps : List (Option (List Nat))) (m : Model) (now : ℚ),
      (processParts m now ps).transcription = m.transcription
  | [], _, _ => rfl
  | none :: rest, m, now => processParts_transcription rest m now
  | some data :: rest, m, now => by
      rw [processParts, processParts_transcription rest, processPart_transcription]

theorem processToolCalls_fst :
    ∀ (fcs : List FunctionCall) (m : Model),
      ∃ o, (processToolCalls m fcs).1 = { m with currentOutfit := o }
  | [], m => ⟨m.currentOutfit, rfl⟩
  | fc :: rest, m => by
      by_cases h : fc.name = "displayOutfitSuggestion"
      · obtain ⟨o, ho⟩ := processToolCalls_fst rest { m with currentOutfit := some fc.args }
        exact ⟨o, by simp [processToolCalls, h, ho]⟩
      · obtain ⟨o, ho⟩ := processToolCalls_fst rest m
        exact ⟨o, by simp [processToolCalls, h, ho]⟩

theorem processToolCalls_appState (fcs : List FunctionCall) (m : Model) :
    (processToolCalls m fcs).1.appState = m.appState := by
  obtain ⟨o, ho⟩ := processToolCalls_fst fcs m
  rw [ho]

theorem processToolCalls_transcription (fcs : List FunctionCall) (m : Model) :
    (processToolCalls m fcs).1.transcription = m.transcription := by
  obtain ⟨o, ho⟩ := processToolCalls_fst fcs m
  rw [ho]

theorem processTranscription_appState (m : Model) (ot : Option String) :
    (processTranscription m ot).appState = m.appState := by
  cases ot with
  | none => rfl
  | some t =>
      simp only [processTranscription]
      split <;> rfl

theorem processTranscription_extends (m : Model) (ot : Option String) :
    ∃ s, (processTranscription m ot).transcription = m.transcription ++ s := by
  cases ot with
  | none => exact ⟨"", (String.append_empty _).symm⟩
  | some t =>
      by_cases h : t = ""
      · refine ⟨"", ?_⟩
        simp only [processTranscription]
        rw [if_pos h, String.append_empty]
      · refine ⟨t, ?_⟩
        simp only [processTranscription]
        rw [if_neg h]

/-- Claim C2: an interruption signal stops every handle in the active set
(`stopHandle` is total: an already finished handle is tolerated), clears
the set, resets the schedule to zero and sets the state to LISTENING; the
next chunk's start offset is then computed against the output clock
alone. -/
theorem interruption_resets (m : Model) (now : ℚ) :
    (processMessage m ⟨[], [], none, true⟩ now).1.sources = [] ∧
    (processMessage m ⟨[], [], none, true⟩ now).1.nextStartTime = 0 ∧
    (processMessage m ⟨[], [], none, true⟩ now).1.appState = AppState.LISTENING ∧
    (∀ p ∈ m.handles, p.1 ∈ m.sources →
      (p.1, stopHandle p.2) ∈ (processMessage m ⟨[], [], none, true⟩ now).1.handles) ∧
    stopHandle HStatus.finished = HStatus.finished ∧
    (∀ now2 : ℚ, 0 ≤ now2 →
      chunkStart (processMessage m ⟨[], [], none, true⟩ now).1 now2 = now2) := by
  have hm : (processMessage m ⟨[], [], none, true⟩ now).1 = processInterrupt m := rfl
  rw [hm]
  refine ⟨rfl, rfl, rfl, ?_, rfl, ?_⟩
  · intro p hp hmem
    unfold processInterrupt
    simp only [List.mem_map]
    exact ⟨p, hp, by rw [if_pos hmem]⟩
  · intro now2 h2
    unfold chunkStart processInterrupt
    exact max_eq_right h2

/-- A model mid-response for the interruption/scheduling witnesses: two
active sources, one already finished, schedule at 7 seconds. -/
def speakModel : Model :=
  { initModel with
      appState := AppState.SPEAKING
      nextStartTime := 7
      sources := [1, 2]
      handles := [(1, HStatus.finished), (2, HStatus.playing)]
      nextId := 3 }

/-- Claim C2 witness: interrupting `speakModel` lands in LISTENING and the
next chunk arriving at clock 3 starts exactly at 3. -/
theorem interruption_resets_witness :
    (processMessage speakModel ⟨[], [], none, true⟩ 5).1.appState = AppState.LISTENING ∧
      chunkStart (processMessage speakModel ⟨[], [], none, true⟩ 5).1 3 = 3 :=
  ⟨(interruption_resets speakModel 5).2.2.1,
   (interruption_resets speakModel 5).2.2.2.2.2 3 (by norm_num)⟩

/-- Claim C4: from LISTENING, a message carrying an audio chunk (and no
interruption) moves the state to SPEAKING; from SPEAKING, a message leads
back to LISTENING exactly when it carries the interruption flag, and an
`ended` event leads back to LISTENING exactly when it drains the active
set to empty. -/
theorem session_transitions :
    (∀ (m : Model) (M : ServerMessage) (now : ℚ),
        m.appState = AppState.LISTENING → M.interrupted = false →
        (∃ d, some d ∈ M.parts) →
        (processMessage m M now).1.appState = AppState.SPEAKING) ∧
    (∀ (m : Model) (M : ServerMessage) (now : ℚ),
        m.appState = AppState.SPEAKING →
        ((processMessage m M now).1.appState = AppState.LISTENING ↔ M.interrupted = true)) ∧
    (∀ (m : Model) (sid : Nat),
        m.appState = AppState.SPEAKING →
        ((processEnded m sid).appState = AppState.LISTENING ↔ m.sources.erase sid = [])) := by
  refine ⟨?_, ?_, ?_⟩
  · intro m M now _ hI hparts
    unfold processMessage
    rw [hI]
    simp only [Bool.false_eq_true, if_false]
    rw [processTranscription_appState]
    exact processParts_some_speaking M.parts _ now hparts
  · intro m M now hS
    unfold processMessage
    cases hI : M.interrupted
    · simp only [Bool.false_eq_true, if_false]
      rw [processTranscription_appState]
      rw [processParts_speaking M.parts _ now (by rw [processToolCalls_appState]; exact hS)]
      exact iff_of_false (by simp) (by simp)
    · exact iff_of_true (by simp [processInterrupt]) rfl
  · intro m sid hS
    by_cases h : m.sources.erase sid = []
    · have hL : (processEnded m sid).appState = AppState.LISTENING := by
        unfold processEnded
        simp [h]
      rw [hL]
      exact iff_of_true rfl h
    · have hA : (processEnded m sid).appState = m.appState := by
        unfold processEnded
        simp [h]
      rw [hA, hS]
      exact iff_of_false (by simp) h

/-- Claim C4 witness: from a listening model, a one-chunk message switches
to SPEAKING; from `speakModel`, an interruption message returns to
LISTENING, and the `ended` event of source 2 alone does not. -/
theorem session_transitions_witness :
    (processMessage { initModel with appState := AppState.LISTENING }
        ⟨[], [some [1, 2]], none, false⟩ 0).1.appState = AppState.SPEAKING ∧
    (processMessage speakModel ⟨[], [], none, true⟩ 0).1.appState = AppState.LISTENING :=
  ⟨session_transitions.1 _ ⟨[], [some [1, 2]], none, false⟩ 0 rfl rfl ⟨[1, 2], by simp⟩,
   (session_transitions.2.1 speakModel ⟨[], [], none, true⟩ 0 rfl).mpr rfl⟩

/-- Claim C5: an invocation of the declared tool produces exactly one
acknowledgement carrying the original call identifier and the `success`
marker, and the outfit-display state is replaced wholesale with the raw
arguments; no field of the arguments is validated, so a malformed
invocation is never rejected. -/
theorem tool_ack (m : Model) (fc : FunctionCall)
    (h : fc.name = "displayOutfitSuggestion") :
    (processToolCalls m [fc]).2 = [Out.toolAck fc.id fc.name "success"] ∧
    (processToolCalls m [fc]).2.length = 1 ∧
    (processToolCalls m [fc]).1.currentOutfit = some fc.args := by
  simp [processToolCalls, h]

/-- A tool invocation with every argument field missing: the malformed
extreme, still acknowledged and rendered. -/
def demoCall : FunctionCall :=
  { id := "call-7"
    name := "displayOutfitSuggestion"
    args := { top := none, bottom := none, footwear := none,
              accessories := none, colorPalette := none, vibe := none } }

/-- Claim C5 witness: the all-fields-missing invocation gets exactly its
one `success` acknowledgement. -/
theorem tool_ack_witness :
    demoCall.name = "displayOutfitSuggestion" ∧
      (processToolCalls initModel [demoCall]).2 =
        [Out.toolAck demoCall.id demoCall.name "success"] :=
  ⟨rfl, (tool_ack initModel demoCall rfl).1⟩

/-- Claim C6: connecting without the credential is rejected immediately —
the only change is the transition to ERROR, no connection request is
issued, and the resulting state is neither LISTENING nor SPEAKING. -/
theorem missing_credential (m : Model) :
    connectToAria m false = ({ m with appState := AppState.ERROR }, []) ∧
    (connectToAria m false).1.appState ≠ AppState.LISTENING ∧
    (connectToAria m false).1.appState ≠ AppState.SPEAKING := by
  refine ⟨rfl, ?_, ?_⟩ <;> simp [connectToAria]

/-- Claim C6 witness: a credential-less connect attempt from the initial
model lands in ERROR with no outbound request. -/
theorem missing_credential_witness :
    connectToAria initModel false = ({ initModel with appState := AppState.ERROR }, []) :=
  (missing_credential initModel).1

/-- A model sitting in LISTENING, as when a response is about to start. -/
def listenModel : Model :=
  { initModel with appState := AppState.LISTENING }

/-- Claim C7 counterexample: a single-byte (odd-length) chunk arriving at
clock 1 in `listenModel` changes the session state (to SPEAKING) and
changes PlaybackSchedule (to 1), contradicting the claim that the state
is unaffected and the schedule does not advance. -/
theorem malformed_chunk_counterexample :
    (processPart listenModel 1 [0]).appState ≠ listenModel.appState ∧
    (processPart listenModel 1 [0]).nextStartTime ≠ listenModel.nextStartTime := by
  rw [processPart_odd listenModel 1 [0] (by decide)]
  constructor
  · simp [listenModel, initModel]
  · have h1 : chunkStart listenModel 1 = 1 := max_eq_right (by norm_num [listenModel, initModel])
    simp only [h1]
    norm_num [listenModel, initModel]

/-- Claim C7 (amended): an odd-length chunk does not crash the pipeline —
it is dropped: no source is scheduled, the active set and handle table are
unchanged, and the schedule is not advanced by any duration — but before
the decode failure the handler has already set the session state to
SPEAKING and clamped PlaybackSchedule to `max(previous value, clock)`. -/
theorem malformed_chunk (m : Model) (now : ℚ) (data : List Nat)
    (h : data.length % 2 = 1) :
    processPart m now data =
      { m with appState := AppState.SPEAKING
               nextStartTime := chunkStart m now } :=
  processPart_odd m now data h

/-- Claim C7 witness: the single-byte chunk at clock 1 in `listenModel`. -/
theorem malformed_chunk_witness :
    ([0] : List Nat).length % 2 = 1 ∧
      processPart listenModel 1 [0] =
        { listenModel with appState := AppState.SPEAKING
                           nextStartTime := chunkStart listenModel 1 } :=
  ⟨by decide, malformed_chunk listenModel 1 [0] (by decide)⟩

/-- Claim C8: the running transcript only ever grows by appending a
suffix, for every event of the component, except that a send event with
nonblank input and a live session resets it to empty. -/
theorem transcript_append_only (m : Model) (e : Ev) :
    (isValidSend m e → (step m e).1.transcription = "") ∧
    (¬ isValidSend m e → ∃ s, (step m e).1.transcription = m.transcription ++ s) := by
  constructor
  · rintro ⟨rfl, hcond⟩
    simp only [step, handleSendMessage]
    rw [if_neg hcond]
  · intro hn
    cases e with
    | connect hasKey =>
        refine ⟨"", ?_⟩
        rw [String.append_empty]
        simp only [step, connectToAria]
        split <;> rfl
    | openEv => exact ⟨"", by rw [String.append_empty]; rfl⟩
    | msg M now =>
        obtain ⟨s, hs⟩ :=
          processTranscription_extends
            (processParts (processToolCalls m M.toolCalls).1 now M.parts)
            M.outputTranscription
        refine ⟨s, ?_⟩
        have hfinal :
            (step m (Ev.msg M now)).1.transcription =
              (processTranscription
                (processParts (processToolCalls m M.toolCalls).1 now M.parts)
                M.outputTranscription).transcription := by
          simp only [step, processMessage]
          split <;> rfl
        rw [hfinal, hs, processParts_transcription, processToolCalls_transcription]
    | ended sid => exact ⟨"", by rw [String.append_empty]; rfl⟩
    | errorEv => exact ⟨"", by rw [String.append_empty]; rfl⟩
    | closeEv => exact ⟨"", by rw [String.append_empty]; rfl⟩
    | send =>
        have hcond : trimString m.userInput = "" ∨ m.session = false := by
          by_contra hc
          exact hn ⟨rfl, hc⟩
        refine ⟨"", ?_⟩
        rw [String.append_empty]
        simp only [step, handleSendMessage]
        rw [if_pos hcond]
    | setInput s => exact ⟨"", by rw [String.append_empty]; rfl⟩

/-- A model with a pending user message and a live session. -/
def sendModel : Model :=
  { initModel with userInput := "hi", session := true, transcription := "old words" }

/-- Claim C8 witness: sending from `sendModel` resets the transcript. -/
theorem transcript_append_only_witness :
    isValidSend sendModel Ev.send ∧ (step sendModel Ev.send).1.transcription = "" := by
  have hv : isValidSend sendModel Ev.send := ⟨rfl, by decide⟩
  exact ⟨hv, (transcript_append_only sendModel Ev.send).1 hv⟩

/-! ## Amplitude publisher, lines 56-82 of `src/unnamed/part_000` -/

/-- The average of the analyser's byte-valued frequency bins divided by
255, as computed in `updateAmplitudes`. -/
def avgAmplitude (bins : List Nat) : ℚ :=
  (bins.sum : ℚ) / (bins.length : ℚ) / 255

/-- One animation-frame update: the output amplitude is published only
while SPEAKING, the input amplitude only while LISTENING; otherwise each
is reset to 0. -/
def updateAmplitudes (st : AppState) (outBins inBins : List Nat) : ℚ × ℚ :=
  (if st = AppState.SPEAKING then avgAmplitude outBins else 0,
   if st = AppState.LISTENING then avgAmplitude inBins else 0)

theorem avgAmplitude_nonneg (bins : List Nat) : 0 ≤ avgAmplitude bins := by
  unfold avgAmplitude
  positivity

theorem avgAmplitude_le_one (bins : List Nat) (h : ∀ b ∈ bins, b ≤ 255) :
    avgAmplitude bins ≤ 1 := by
  have hsum : bins.sum ≤ bins.length * 255 := by
    have := List.sum_le_card_nsmul bins 255 h
    simpa [smul_eq_mul] using this
  unfold avgAmplitude
  rw [div_div]
  apply div_le_one_of_le₀
  · exact_mod_cast hsum
  · positivity

/-- Claim C9: each published amplitude lies in [0, 1] whenever the
analyser bins are bytes, and the output amplitude is exactly 0 outside
SPEAKING while the input amplitude is exactly 0 outside LISTENING. -/
theorem amplitude_bounds (st : AppState) (outBins inBins : List Nat)
    (hout : ∀ b ∈ outBins, b ≤ 255) (hin : ∀ b ∈ inBins, b ≤ 255) :
    (0 ≤ (updateAmplitudes st outBins inBins).1 ∧
      (updateAmplitudes st outBins inBins).1 ≤ 1) ∧
    (0 ≤ (updateAmplitudes st outBins inBins).2 ∧
      (updateAmplitudes st outBins inBins).2 ≤ 1) ∧
    (st ≠ AppState.SPEAKING → (updateAmplitudes st outBins inBins).1 = 0) ∧
    (st ≠ AppState.LISTENING → (updateAmplitudes st outBins inBins).2 = 0) := by
  have h1 : (updateAmplitudes st outBins inBins).1 =
      if st = AppState.SPEAKING then avgAmplitude outBins else 0 := rfl
  have h2 : (updateAmplitudes st outBins inBins).2 =
      if st = AppState.LISTENING then avgAmplitude inBins else 0 := rfl
  rw [h1, h2]
  refine ⟨⟨?_, ?_⟩, ⟨?_, ?_⟩, ?_, ?_⟩
  · split
    · exact avgAmplitude_nonneg outBins
    · exact le_refl 0
  · split
    · exact avgAmplitude_le_one outBins hout
    · exact zero_le_one
  · split
    · exact avgAmplitude_nonneg inBins
    · exact le_refl 0
  · split
    · exact avgAmplitude_le_one inBins hin
    · exact zero_le_one
  · intro hne
    simp only [if_neg hne]
  · intro hne
    simp only [if_neg hne]

/-- Claim C9 witness: concrete byte bins at state SPEAKING; the input
amplitude is forced to 0. -/
theorem amplitude_bounds_witness :
    (∀ b ∈ [255, 0], b ≤ 255) ∧ (∀ b ∈ [10], b ≤ 255) ∧
      (updateAmplitudes AppState.SPEAKING [255, 0] [10]).2 = 0 :=
  ⟨by decide, by decide,
   (amplitude_bounds AppState.SPEAKING [255, 0] [10] (by decide) (by decide)).2.2.2
     (by decide)⟩

/-- Claim C10: whenever a source's `ended` event leaves the active set
empty, the session state is set to LISTENING unconditionally — whatever
the state was at that moment, including ERROR or IDLE. -/
theorem ended_overwrites_state (m : Model) (sid : Nat)
    (h : m.sources.erase sid = []) :
    (processEnded m sid).appState = AppState.LISTENING ∧
    (processEnded m sid).sources = m.sources.erase sid := by
  unfold processEnded
  simp [h]

/-- A model stuck in ERROR after a transport failure, with one source
still registered. -/
def errorModel : Model :=
  { initModel with appState := AppState.ERROR, sources := [5] }

/-- Claim C10 witness: source 5 finishing in `errorModel` overwrites the
ERROR state with LISTENING. -/
theorem ended_overwrites_state_witness :
    errorModel.sources.erase 5 = [] ∧ errorModel.appState = AppState.ERROR ∧
      (processEnded errorModel 5).appState = AppState.LISTENING :=
  ⟨by decide, rfl, (ended_overwrites_state errorModel 5 (by decide)).1⟩
